import Mathlib

/-!
Verification of the markdown-to-block conversion engine of
`saturna-tech/notion-markdown-importer` (`src/migrate.py`).

The Python code is shallowly embedded: Python `str` values become `List Char`
(`Str`), the regular expressions used by the code become hand-rolled
deterministic scanners (each pattern in the source uses only character
classes that exclude their closing delimiter, so matching is backtracking-free
and the scanners below implement exactly the leftmost, earliest-alternative
semantics of Python's `re`), and the filesystem touched by reference
resolution becomes an explicit directory tree.  External collaborators
(Notion upload, page-title fetching over HTTP) are modelled as function
parameters.  Fidelity notes are attached to each definition; Unicode-only
divergences (`str.lower`, `\d`, `\s`, `urllib.parse.unquote` on non-ASCII
escapes) are modelled at ASCII granularity, which covers every input used in
the theorems below.
-/

namespace NotionMigrate

/-- Characters of a Python `str`, modelled as a list of `Char`. -/
abbrev Str := List Char

/-- Shorthand to write `Str` literals. -/
def str (s : String) : Str := s.data

/-- Backtick character (written via its code point). -/
def bq : Char := Char.ofNat 96

/-- Double-quote character. -/
def dq : Char := Char.ofNat 34

/-- Single-quote character. -/
def sq : Char := Char.ofNat 39

/-- Python `str.isspace` on the ASCII whitespace characters, the ones `\s`
and `str.strip()` recognise for the inputs considered here. -/
def pyIsSpace (c : Char) : Bool :=
  c = ' ' || c = '\t' || c = '\n' || c = '\r' || c = Char.ofNat 11 || c = Char.ofNat 12

/-- Python `s.strip()` with no argument: remove whitespace from both ends. -/
def pyStrip (s : Str) : Str :=
  ((s.dropWhile pyIsSpace).reverse.dropWhile pyIsSpace).reverse

/-- Python `s.strip(chars)`: remove any of `cs` from both ends. -/
def stripChars (cs : List Char) (s : Str) : Str :=
  ((s.dropWhile (cs.contains ·)).reverse.dropWhile (cs.contains ·)).reverse

/-- Python `s.rstrip(chars)`: remove any of `cs` from the right end. -/
def rstripChars (cs : List Char) (s : Str) : Str :=
  (s.reverse.dropWhile (cs.contains ·)).reverse

/-- ASCII lowering of one character, modelling Python `str.lower` on ASCII. -/
def lowerCh (c : Char) : Char :=
  if 'A' ≤ c && c ≤ 'Z' then Char.ofNat (c.toNat + 32) else c

/-- Python `s.lower()` (ASCII model). -/
def toLowerStr (s : Str) : Str := s.map lowerCh

/-- Python `s[a:b]` for `0 ≤ a ≤ b`. -/
def slice (s : Str) (a b : Nat) : Str := (s.drop a).take (b - a)

/-- Python `s[a:len(s)-b]`, as used by `part[2:-2]` and `part[1:-1]`. -/
def pySlice2 (s : Str) (a b : Nat) : Str := (s.drop a).take (s.length - (a + b))

/-- Helper for `splitCh`: accumulates the current field reversed. -/
def splitChGo (sep : Char) (cur : Str) : Str → List Str
  | [] => [cur.reverse]
  | c :: t => if c = sep then cur.reverse :: splitChGo sep [] t else splitChGo sep (c :: cur) t

/-- Python `s.split(sep)` for a one-character separator; `"".split(sep) = [""]`. -/
def splitCh (sep : Char) (s : Str) : List Str := splitChGo sep [] s

/-- Python `content.split('\n')`. -/
def splitNl (s : Str) : List Str := splitCh '\n' s

/-- Python `'\n'.join(lines)`. -/
def joinNl : List Str → Str
  | [] => []
  | [l] => l
  | l :: ls => l ++ '\n' :: joinNl ls

/-- Index of the first occurrence of `needle` in `hay` (Python `str.find`),
`none` when absent.  An empty needle is found at 0, as in Python. -/
def findSub (needle : Str) : Str → Option Nat
  | [] => if needle.isPrefixOf [] then some 0 else none
  | c :: t => if needle.isPrefixOf (c :: t) then some 0 else (findSub needle t).map (· + 1)

/-- Python `needle in hay` on strings. -/
def containsSub (needle hay : Str) : Bool := (findSub needle hay).isSome

/-- Text before / after the first occurrence of `sep`, mirroring how
`build_blocks` uses `line.split(original_ref)`: `parts[0]` and
`original_ref.join(parts[1:])`.  When `sep` does not occur the whole line is
the "before" part and the "after" part is empty. -/
def splitFirstOn (sep l : Str) : Str × Str :=
  match findSub sep l with
  | some i => (l.take i, l.drop (i + sep.length))
  | none => (l, [])

/-- Python `dict` insertion: an existing key keeps its position and gets the
new value; a new key is appended.  Iteration order of `dict.items()` is this
list's order. -/
def dictInsert (k : Str) (v : α) : List (Str × α) → List (Str × α)
  | [] => [(k, v)]
  | (k₁, v₁) :: t => if k₁ = k then (k₁, v) :: t else (k₁, v₁) :: dictInsert k v t

/-! ## URL validation (`_is_valid_url` / `_sanitize_url`) -/

/-- The `netloc` that `urllib.parse.urlparse` assigns to a URL that starts
with `http://` or `https://`: everything after the `//` up to the first
`/`, `?` or `#`. -/
def urlNetloc (u : Str) : Str :=
  let rest := if (str "https://").isPrefixOf u then u.drop 8 else u.drop 7
  rest.takeWhile (fun c => !(c = '/' || c = '?' || c = '#'))

/-- Body of `_is_valid_url` for a URL already known to start with
`http://` or `https://` (the only way it is reached, via `_sanitize_url`):
the netloc must be non-empty and contain a dot.  A square bracket in the
netloc makes `urlparse` raise `ValueError`, which the method catches and
turns into `False`; this is modelled directly (the sole divergence is a
valid bracketed IPv6 host, which no input here uses). -/
def isValidUrlTail (u : Str) : Bool :=
  let nl := urlNetloc u
  !nl.isEmpty && nl.contains '.' && !nl.contains '[' && !nl.contains ']'

/-- Python `_sanitize_url`: strip whitespace, angle brackets and quotes,
require an `http://`/`https://` prefix, then validate. -/
def sanitizeUrl (url : Str) : Option Str :=
  if url = [] then none
  else
    let u := stripChars [dq, sq] (stripChars ['<', '>'] (pyStrip url))
    if !((str "http://").isPrefixOf u || (str "https://").isPrefixOf u) then none
    else if !isValidUrlTail u then none
    else some u

/-! ## Rich text runs -/

/-- The single style flag a run can carry: `_parse_formatted_text` sets at
most one of `bold`, `italic`, `code` in the `annotations` dict. -/
inductive Ann where
  | bold
  | italic
  | code
deriving DecidableEq

/-- One Notion rich-text object as produced by the builder:
`{"type": "text", "text": {"content": …, "link"?: …}, "annotations"?: …}`. -/
structure TextRun where
  content : Str
  ann : Option Ann := none
  link : Option Str := none
deriving DecidableEq

/-- The run-splitting loop at the bottom of `_parse_formatted_text`:
`while content: chunk = content[:2000]; content = content[2000:]`.
Fuel-structured so that it evaluates by kernel reduction; `s.length` fuel
is always sufficient. -/
def chunksGo : Nat → Str → List Str
  | 0, _ => []
  | _, [] => []
  | fuel + 1, s => s.take 2000 :: chunksGo fuel (s.drop 2000)

/-- Split a string into chunks of at most 2000 characters (empty string
gives no chunks, exactly like the Python `while` loop). -/
def chunks2000 (s : Str) : List Str := chunksGo s.length s

/-! ## Generic scanner

Each Python `finditer` loop becomes `scanAll m s`: the matcher `m` receives
the character immediately before the current position (for the lookbehinds
`(?<!!)`, `(?<!\()`, `(?<!\*)`) and the remaining text, and reports the
match payload plus the match length.  Scanning restarts right after each
match, as `finditer` does.  The fuel `s.length + 1` is always sufficient
because every match consumes at least one character. -/

/-- Fuel-driven scanning loop. -/
def scanGo (m : Option Char → Str → Option (α × Nat)) :
    Nat → Option Char → Nat → Str → List (Nat × α × Nat)
  | 0, _, _, _ => []
  | fuel + 1, prev, i, l =>
    match m prev l with
    | some (a, n) => (i, a, n) :: scanGo m fuel ((l.drop (n - 1)).head?) (i + n) (l.drop n)
    | none =>
      match l with
      | [] => []
      | c :: t => scanGo m fuel (some c) (i + 1) t

/-- All matches of `m` in `l` as `(start, payload, length)` triples. -/
def scanAll (m : Option Char → Str → Option (α × Nat)) (l : Str) : List (Nat × α × Nat) :=
  scanGo m (l.length + 1) none 0 l

/-- Matcher for `\[([^\]]+)\]\(([^)]+)\)` (the `link_pattern` of
`_rich_text`); payload is `(text, url)`. -/
def linkM (_ : Option Char) (l : Str) : Option ((Str × Str) × Nat) :=
  match l with
  | c :: t =>
    if c = '[' then
      let txt := t.takeWhile (· ≠ ']')
      if txt = [] then none
      else if (t.drop txt.length).take 2 = [']', '('] then
        let u := (t.drop txt.length).drop 2
        let url := u.takeWhile (· ≠ ')')
        if url = [] then none
        else if (u.drop url.length).take 1 = [')'] then
          some ((txt, url), txt.length + url.length + 4)
        else none
      else none
    else none
  | [] => none

/-- Character class `[^\s<>\[\]()]` of `BARE_URL_PATTERN`. -/
def urlTailChar (c : Char) : Bool :=
  !(pyIsSpace c || c = '<' || c = '>' || c = '[' || c = ']' || c = '(' || c = ')')

/-- Matcher for `BARE_URL_PATTERN = (?<!\()(https?://[^\s<>\[\]()]+)`;
payload is the matched token. -/
def bareUrlM (prev : Option Char) (l : Str) : Option (Str × Nat) :=
  if prev = some '(' then none
  else
    let pre : Option Nat :=
      if (str "https://").isPrefixOf l then some 8
      else if (str "http://").isPrefixOf l then some 7
      else none
    match pre with
    | none => none
    | some k =>
      let tail := (l.drop k).takeWhile urlTailChar
      if tail = [] then none
      else some (l.take (k + tail.length), k + tail.length)

/-- Matcher for one alternative `opn [^bad]+ cls` of the emphasis pattern;
payload is the whole matched delimiter text. -/
def tokM (opn : Str) (bad : Char) (cls : Str) (l : Str) : Option (Str × Nat) :=
  if opn.isPrefixOf l then
    let t := l.drop opn.length
    let run := t.takeWhile (· ≠ bad)
    if run = [] then none
    else if cls.isPrefixOf (t.drop run.length) then
      some (opn ++ run ++ cls, opn.length + run.length + cls.length)
    else none
  else none

/-- Matcher for the `_parse_formatted_text` split pattern
`(\*\*[^*]+\*\*|__[^_]+__|(?<!\*)\*[^*]+\*(?!\*)|_[^_]+_|` code span `)`,
trying the alternatives in Python's left-to-right order. -/
def fmtM (prev : Option Char) (l : Str) : Option (Str × Nat) :=
  match tokM (str "**") '*' (str "**") l with
  | some r => some r
  | none =>
    match tokM (str "__") '_' (str "__") l with
    | some r => some r
    | none =>
      match
        (if prev = some '*' then none
         else
           match tokM ['*'] '*' ['*'] l with
           | some (d, n) =>
             match l.drop n with
             | '*' :: _ => none
             | _ => some (d, n)
           | none => none) with
      | some r => some r
      | none =>
        match tokM ['_'] '_' ['_'] l with
        | some r => some r
        | none => tokM [bq] bq [bq] l

/-- Rebuild the part list that `re.split` returns (gap, delimiter, gap, …,
final gap) from the matches of the split pattern. -/
def partsFromMatches (s : Str) : Nat → List (Nat × Str × Nat) → List Str
  | lastEnd, [] => [slice s lastEnd s.length]
  | lastEnd, (i, d, n) :: rest => slice s lastEnd i :: d :: partsFromMatches s (i + n) rest

/-- The parts of `re.split(pattern, text)` in `_parse_formatted_text`. -/
def fmtParts (s : Str) : List Str := partsFromMatches s 0 (scanAll fmtM s)

/-- The per-part classification of `_parse_formatted_text`: the chain of
`startswith`/`endswith` tests (applied to every part, delimiter or not),
then the 2000-character chunking; an empty content yields no run. -/
def classifyPart (part : Str) : List TextRun :=
  if part = [] then []
  else
    let ca : Str × Option Ann :=
      if (str "**").isPrefixOf part && (str "**").isSuffixOf part then
        (pySlice2 part 2 2, some Ann.bold)
      else if (str "__").isPrefixOf part && (str "__").isSuffixOf part then
        (pySlice2 part 2 2, some Ann.bold)
      else if ['*'].isPrefixOf part && ['*'].isSuffixOf part && part.length > 2 then
        (pySlice2 part 1 1, some Ann.italic)
      else if ['_'].isPrefixOf part && ['_'].isSuffixOf part && part.length > 2 then
        (pySlice2 part 1 1, some Ann.italic)
      else if [bq].isPrefixOf part && [bq].isSuffixOf part then
        (pySlice2 part 1 1, some Ann.code)
      else (part, none)
    (chunks2000 ca.1).map (fun c => { content := c, ann := ca.2, link := none })

/-- Python `_parse_formatted_text`. -/
def parseFormattedText (s : Str) : List TextRun :=
  if s = [] then [] else ((fmtParts s).map classifyPart).flatten

/-- The punctuation set of `raw_url = match.group(1).rstrip('.,;:!?)"\'')`. -/
def puncts : List Char := ['.', ',', ';', ':', '!', '?', ')', dq, sq]

/-- The loop body of `_parse_text_with_urls`, folding over the bare-URL
matches with the `last_end` cursor.  `ft` models `_fetch_page_title`
(an HTTP call; `title if title else url` keeps the URL when the title is
absent or empty). -/
def textUrlGo (ft : Str → Option Str) (text : Str) :
    List (Nat × Str × Nat) → Nat → List TextRun
  | [], lastEnd =>
    if lastEnd < text.length then parseFormattedText (text.drop lastEnd) else []
  | (i, tok, _) :: rest, lastEnd =>
    let raw := rstripChars puncts tok
    match sanitizeUrl raw with
    | none => textUrlGo ft text rest lastEnd
    | some url =>
      let before := if i > lastEnd then parseFormattedText (slice text lastEnd i) else []
      let t :=
        match ft url with
        | some ttl => if ttl = [] then url else ttl
        | none => url
      before ++ { content := t.take 2000, ann := none, link := some url } ::
        textUrlGo ft text rest (i + raw.length)

/-- Python `_parse_text_with_urls`. -/
def parseTextWithUrls (ft : Str → Option Str) (text : Str) : List TextRun :=
  if text = [] then []
  else if textUrlGo ft text (scanAll bareUrlM text) 0 = [] then parseFormattedText text
  else textUrlGo ft text (scanAll bareUrlM text) 0

/-- The loop body of `_rich_text`, folding over the markdown-link matches
with the `last_end` cursor. -/
def richGo (ft : Str → Option Str) (text : Str) :
    List (Nat × (Str × Str) × Nat) → Nat → List TextRun
  | [], lastEnd =>
    if lastEnd < text.length then parseTextWithUrls ft (text.drop lastEnd) else []
  | (i, (ltxt, lurl), n) :: rest, lastEnd =>
    let before := if i > lastEnd then parseTextWithUrls ft (slice text lastEnd i) else []
    let mid : List TextRun :=
      match sanitizeUrl lurl with
      | some u => [{ content := ltxt.take 2000, ann := none, link := some u }]
      | none => parseFormattedText ltxt
    before ++ mid ++ richGo ft text rest (i + n)

/-- The `{"type": "text", "text": {"content": ""}}` fallback run. -/
def emptyRun : TextRun := { content := [], ann := none, link := none }

/-- Python `_rich_text`: empty text yields `[]`; otherwise segment and fall
back to a single empty run if no segment was produced. -/
def richText (ft : Str → Option Str) (text : Str) : List TextRun :=
  if text = [] then []
  else if richGo ft text (scanAll linkM text) 0 = [] then [emptyRun]
  else richGo ft text (scanAll linkM text) 0

/-! ## Wikilink rewriting (`_convert_wikilinks`) -/

/-- Matcher for `\[\[([^\]|]+)\|([^\]]+)\]\]`; payload is the replacement
(group 2, the label). -/
def wl1M (l : Str) : Option (Str × Nat) :=
  match l with
  | '[' :: '[' :: t =>
    let tgt := t.takeWhile (fun c => !(c = ']' || c = '|'))
    if tgt = [] then none
    else
      match t.drop tgt.length with
      | '|' :: u =>
        let lab := u.takeWhile (· ≠ ']')
        if lab = [] then none
        else
          match u.drop lab.length with
          | ']' :: ']' :: _ => some (lab, tgt.length + lab.length + 5)
          | _ => none
      | _ => none
  | _ => none

/-- Matcher for `\[\[([^\]]+)\]\]`; payload is the replacement (group 1,
the target). -/
def wl2M (l : Str) : Option (Str × Nat) :=
  match l with
  | '[' :: '[' :: t =>
    let tgt := t.takeWhile (· ≠ ']')
    if tgt = [] then none
    else
      match t.drop tgt.length with
      | ']' :: ']' :: _ => some (tgt, tgt.length + 4)
      | _ => none
  | _ => none

/-- Fuel-driven `re.sub` loop: replace every match, scanning left to right.
`s.length + 1` fuel is sufficient since each match consumes at least one
character. -/
def subGo (m : Str → Option (Str × Nat)) : Nat → Str → Str
  | 0, l => l
  | fuel + 1, l =>
    match m l with
    | some (rep, n) => rep ++ subGo m fuel (l.drop n)
    | none =>
      match l with
      | [] => []
      | c :: t => c :: subGo m fuel t

/-- Python `re.sub(pattern, replacement, s)` for the wikilink patterns. -/
def reSub (m : Str → Option (Str × Nat)) (s : Str) : Str := subGo m (s.length + 1) s

/-- Python `_convert_wikilinks`: first `[[target|label]] → label`, then
`[[target]] → target`. -/
def convertWikilinks (s : Str) : Str := reSub wl2M (reSub wl1M s)

/-! ## Blocks and the block builder (`NotionBlockBuilder.build_blocks`) -/

/-- The tagged block variants the builder emits.  `code` keeps the (already
truncated) content and mapped language of the single rich-text run of a
Notion code block; `attach` is one of the uploaded-file blocks
(`image`/`video`/`audio`/`pdf`/`file`) with its upload id; `callout` is the
placeholder used for failed uploads. -/
inductive Block where
  | paragraph (rt : List TextRun)
  | heading (level : Nat) (rt : List TextRun)
  | bullet (rt : List TextRun)
  | numbered (rt : List TextRun)
  | todo (rt : List TextRun) (checked : Bool)
  | quote (rt : List TextRun)
  | divider
  | code (content : Str) (language : Str)
  | callout (rt : List TextRun) (color : Str)
  | attach (btype : Str) (uploadId : Str)
deriving DecidableEq

/-- The dict `upload_file`/`build_blocks` associate with a resolved file:
`file_upload_id` (absent or `None` on failure / dry paths), the block type
from `_get_block_type`, and the file name. -/
structure FileInfo where
  fileUploadId : Option Str
  btype : Str
  name : Str
deriving DecidableEq

/-- The `lang_map` of `_code_block`. -/
def langAliases : List (Str × Str) :=
  [(str "js", str "javascript"), (str "ts", str "typescript"), (str "py", str "python"),
   (str "rb", str "ruby"), (str "yml", str "yaml"), (str "sh", str "shell"),
   (str "bash", str "shell"), (str "zsh", str "shell"), ([], str "plain text")]

/-- `lang_map.get(language.lower(), language.lower())`. -/
def lookupLang (language : Str) : Str :=
  let lo := toLowerStr language
  match langAliases.find? (fun e => e.1 == lo) with
  | some e => e.2
  | none => lo

/-- Python `_code_block`: content truncated to 2000, language mapped. -/
def codeBlock (content language : Str) : Block :=
  Block.code (content.take 2000) (lookupLang language)

/-- The type-dispatch of `_file_block`: unknown types fall back to `file`. -/
def fileBlockType (t : Str) : Str :=
  if t == str "image" || t == str "video" || t == str "audio" || t == str "pdf" then t
  else str "file"

/-- Python `_file_block`: `None` (no block) when the upload id is falsy. -/
def fileBlockOf (fi : FileInfo) : Option Block :=
  match fi.fileUploadId with
  | some fid => if fid = [] then none else some (Block.attach (fileBlockType fi.btype) fid)
  | none => none

/-- Python truthiness of `file_info.get("file_upload_id")`. -/
def truthyOptStr : Option Str → Bool
  | some s => !s.isEmpty
  | none => false

/-- Text of the attachment-placeholder callout. -/
def calloutText (name : Str) (failed : Bool) : Str :=
  str "📎 Attachment: " ++ name ++ (if failed then str " (upload failed)" else [])

/-- Matcher for `^\d+\. ` (`re.match` in the numbered-item branch); returns
the line with the prefix removed, as `re.sub(r'^\d+\. ', '', line)` does. -/
def numberedPre (l : Str) : Option Str :=
  let ds := l.takeWhile Char.isDigit
  if ds = [] then none
  else
    match l.drop ds.length with
    | '.' :: ' ' :: rest => some rest
    | _ => none

/-- The code-fence token (three backticks). -/
def fenceTok : Str := [bq, bq, bq]

/-- The divider forms `['---', '***', '___']`. -/
def dividerStrs : List Str := [['-', '-', '-'], ['*', '*', '*'], ['_', '_', '_']]

/-- The per-line prefix dispatch of `build_blocks` (lines 669–691 of
`migrate.py`), evaluated when the line is outside a fence and contains no
reference token.  The branch order is the source's `elif` order; in
particular `- ` is tested before `- [ ] `/`- [x] `, and headings do not go
through `_convert_wikilinks`.  Blank lines yield no block. -/
def dispatchLine (ft : Str → Option Str) (line : Str) : Option Block :=
  if (['#', ' ']).isPrefixOf line then some (.heading 1 (richText ft (line.drop 2)))
  else if (['#', '#', ' ']).isPrefixOf line then some (.heading 2 (richText ft (line.drop 3)))
  else if (['#', '#', '#', ' ']).isPrefixOf line then some (.heading 3 (richText ft (line.drop 4)))
  else if (['-', ' ']).isPrefixOf line || (['*', ' ']).isPrefixOf line then
    some (.bullet (richText ft (convertWikilinks (line.drop 2))))
  else
    match numberedPre line with
    | some rest => some (.numbered (richText ft (convertWikilinks rest)))
    | none =>
      if (['-', ' ', '[', ' ', ']', ' ']).isPrefixOf line then
        some (.todo (richText ft (convertWikilinks (line.drop 6))) false)
      else if (['-', ' ', '[', 'x', ']', ' ']).isPrefixOf line
          || (['-', ' ', '[', 'X', ']', ' ']).isPrefixOf line then
        some (.todo (richText ft (convertWikilinks (line.drop 6))) true)
      else if (['>', ' ']).isPrefixOf line then
        some (.quote (richText ft (convertWikilinks (line.drop 2))))
      else if dividerStrs.contains (pyStrip line) then some .divider
      else if pyStrip line ≠ [] then some (.paragraph (richText ft (convertWikilinks line)))
      else none

/-- The reference-token branch of `build_blocks` (lines 634–663): split the
line at the first occurrence of the token, emit a paragraph for non-blank
text before it, the attachment block (or the failure callout) for the
token, and a paragraph for non-blank text after it. -/
def refBlocks (ft : Str → Option Str) (tok : Str) (fi : Option FileInfo) (line : Str) :
    List Block :=
  let parts := splitFirstOn tok line
  let pre := pyStrip parts.1
  let b1 := if pre ≠ [] then [Block.paragraph (richText ft (convertWikilinks pre))] else []
  let mid : List Block :=
    match fi with
    | some info =>
      if truthyOptStr info.fileUploadId then
        match fileBlockOf info with
        | some b => [b]
        | none => [Block.callout (richText ft (calloutText info.name false)) (str "gray_background")]
      else
        [Block.callout (richText ft (calloutText info.name true)) (str "gray_background")]
    | none => []
  let post := pyStrip parts.2
  let b2 := if post ≠ [] then [Block.paragraph (richText ft (convertWikilinks post))] else []
  b1 ++ mid ++ b2

/-- A discovered reference span: the original token text (`match.group(0)`),
the resolved path and the `[start, end)` byte range in the body. -/
structure FileRef where
  tok : Str
  path : List Str
  startPos : Nat
  endPos : Nat
deriving DecidableEq

/-- The line loop of `build_blocks`, carrying the fenced-code state
(`in_code_block`, `code_block_lang`, `code_block_lines`).  On closing a
fence only the flag is reset, exactly as in the source; the final flush
happens only when the document ends inside a fence with accumulated
lines. -/
def buildLoop (ft : Str → Option Str) (fim : List (Str × Option FileInfo)) :
    List Str → Bool → Str → List Str → List Block
  | [], inCode, lang, acc =>
    if inCode && acc ≠ [] then [codeBlock (joinNl acc) lang] else []
  | line :: rest, inCode, lang, acc =>
    if fenceTok.isPrefixOf line then
      if !inCode then
        buildLoop ft fim rest true
          (let lg := pyStrip (line.drop 3); if lg = [] then str "plain text" else lg) []
      else codeBlock (joinNl acc) lang :: buildLoop ft fim rest false lang acc
    else if inCode then buildLoop ft fim rest true lang (acc ++ [line])
    else
      match fim.find? (fun e => containsSub e.1 line) with
      | some (tok, fi) => refBlocks ft tok fi line ++ buildLoop ft fim rest false lang acc
      | none =>
        match dispatchLine ft line with
        | some b => b :: buildLoop ft fim rest false lang acc
        | none => buildLoop ft fim rest false lang acc

/-- Python `build_blocks`: build `file_info_map` from the discovered
references (a `dict` keyed by token text, so `dictInsert`), upload each
file (`upload` models `NotionFileUploader.upload_file`, which returns
`None` when uploads are skipped or the file vanished), then run the line
loop over the body. -/
def buildBlocks (upload : List Str → Option FileInfo) (ft : Str → Option Str)
    (refs : List FileRef) (content : Str) : List Block :=
  let fim := refs.foldl (fun m r => dictInsert r.tok (upload r.path) m) []
  buildLoop ft fim (splitNl content) false [] []

/-! ## Filesystem model and reference resolution (`ObsidianParser`)

The vault is an explicit directory tree rooted at `vault_path`; paths are
component lists relative to the vault root.  References are assumed
relative without `..` components (the tool's inputs are Obsidian-style
relative links), so `Path(dir) / ref` is concatenation of `ref`'s
`/`-separated segments (with empty and `.` segments collapsed, as
`pathlib` does). -/

/-- A filesystem entry: a plain file or a directory with an ordered listing
(the order `os.scandir`/`iterdir` present entries in). -/
inductive FsEntry where
  | file
  | dir (entries : List (Str × FsEntry))

/-- A vault: the listing of the root directory. -/
abbrev Vault := List (Str × FsEntry)

mutual

/-- Number of nodes of an entry (used as walk fuel). -/
def fsSize : FsEntry → Nat
  | .file => 1
  | .dir es => 1 + fsSizeList es

/-- Number of nodes of a listing. -/
def fsSizeList : List (Str × FsEntry) → Nat
  | [] => 0
  | (_, e) :: t => 1 + fsSize e + fsSizeList t

end

/-- Look up a name in a directory listing. -/
def findEntry (nm : Str) : List (Str × FsEntry) → Option FsEntry
  | [] => none
  | (n, e) :: t => if n = nm then some e else findEntry nm t

/-- Follow a path from an entry. -/
def lookupFs (e : FsEntry) : List Str → Option FsEntry
  | [] => some e
  | c :: p =>
    match e with
    | .file => none
    | .dir es =>
      match findEntry c es with
      | some e₁ => lookupFs e₁ p
      | none => none

/-- Python `Path.exists()` (true for files and directories). -/
def fsExists (v : Vault) (p : List Str) : Bool := (lookupFs (.dir v) p).isSome

/-- Python `Path.iterdir()`: the listing of a directory, `[]` when the path
is not a directory. -/
def dirListing (v : Vault) (p : List Str) : List (Str × FsEntry) :=
  match lookupFs (.dir v) p with
  | some (.dir es) => es
  | _ => []

/-- Value of one hex digit, if any. -/
def hexVal (c : Char) : Option Nat :=
  if '0' ≤ c && c ≤ '9' then some (c.toNat - 48)
  else if 'a' ≤ c && c ≤ 'f' then some (c.toNat - 87)
  else if 'A' ≤ c && c ≤ 'F' then some (c.toNat - 55)
  else none

/-- `urllib.parse.unquote` restricted to single-byte escapes (`%20` etc.);
multi-byte UTF-8 escape sequences are not used by any input here. -/
def unquote : Str → Str
  | [] => []
  | '%' :: a :: b :: t =>
    match hexVal a, hexVal b with
    | some x, some y => Char.ofNat (16 * x + y) :: unquote t
    | _, _ => '%' :: unquote (a :: b :: t)
  | c :: t => c :: unquote t

/-- The non-empty, non-`.` segments of a `/`-separated reference string. -/
def pathSegs (r : Str) : List Str :=
  (splitCh '/' r).filter (fun s => s ≠ [] && s ≠ ['.'])

/-- Python `Path(r).name` (with `..` giving an empty name, as in pathlib). -/
def pathName (r : Str) : Str :=
  match (pathSegs r).getLast? with
  | some s => if s = ['.', '.'] then [] else s
  | none => []

/-- Python `Path(r).stem`: the name with its final suffix removed; a suffix
needs a dot that is neither leading nor trailing. -/
def pathStem (r : Str) : Str :=
  let n := pathName r
  let k := (n.reverse.takeWhile (· ≠ '.')).length
  if k = n.length then n
  else
    let i := n.length - k - 1
    if 0 < i && i < n.length - 1 then n.take i else n

/-- Python `dir / r` for a relative reference `r`. -/
def pyJoin (p : List Str) (r : Str) : List Str := p ++ pathSegs r

/-- One record of `self.unresolved_references`. -/
structure Unres where
  note : Str
  ref : Str
deriving DecidableEq

/-- The files emitted by one `os.walk` level, in listing order. -/
def filesOf (es : List (Str × FsEntry)) : List Str :=
  es.filterMap (fun e => match e.2 with | .file => some e.1 | _ => none)

/-- Recursive walk below a directory, mirroring `os.walk` top-down order
with hidden directories pruned (`dirs[:] = [d for d in dirs if not
d.startswith('.')]`): each subdirectory level yields its file names, then
its own subdirectories.  Fuel-structured on `sizeOf` so it evaluates by
kernel reduction; the fuel is always sufficient since both recursive
arguments are structurally smaller. -/
def walkGo : Nat → List Str → List (Str × FsEntry) → List (List Str × List Str)
  | 0, _, _ => []
  | fuel + 1, p, es =>
    match es with
    | [] => []
    | (_, .file) :: t => walkGo fuel p t
    | (nm, .dir cs) :: t =>
      if ['.'].isPrefixOf nm then walkGo fuel p t
      else ((p ++ [nm], filesOf cs) :: walkGo fuel (p ++ [nm]) cs) ++ walkGo fuel p t

/-- All `(directory, files)` levels of `os.walk(vault_path)`. -/
def walkAll (v : Vault) : List (List Str × List Str) :=
  ([], filesOf v) :: walkGo (fsSizeList v) [] v

/-- Python `_search_vault_for_file`: first file in walk order whose name
equals the basename or its (further) unquoted form. -/
def searchVault (v : Vault) (basename : Str) : Option (List Str) :=
  let bd := unquote basename
  (walkAll v).findSome? (fun lvl =>
    (lvl.2.find? (fun f => f == basename || f == bd)).map (fun f => lvl.1 ++ [f]))

/-- One iteration of the `for r in [ref_decoded, ref]` loop of
`_resolve_file_path`: the five lookup strategies in source order, for one
form `r` of the reference. -/
def tryForm (v : Vault) (noteDir filesDir : List Str) (r : Str) : Option (List Str) :=
  if fsExists v filesDir && fsExists v (pyJoin filesDir r) then some (pyJoin filesDir r)
  else if fsExists v filesDir && fsExists v (filesDir ++ [pathName r]) then
    some (filesDir ++ [pathName r])
  else if fsExists v (pyJoin noteDir r) then some (pyJoin noteDir r)
  else if fsExists v (pyJoin [] r) then some (pyJoin [] r)
  else if fsExists v filesDir then
    match (dirListing v filesDir).find?
        (fun e => e.1 == pathName r || pathStem e.1 == pathStem r) with
    | some e => some (filesDir ++ [e.1])
    | none => none
  else none

/-- Strategy 1 of `_resolve_file_path`: `files_dir / r` (guarded by
`files_dir.exists()`). -/
def strat1 (v : Vault) (filesDir : List Str) (r : Str) : Option (List Str) :=
  if fsExists v filesDir && fsExists v (pyJoin filesDir r) then some (pyJoin filesDir r) else none

/-- Strategy 2: `files_dir / Path(r).name` (same guard). -/
def strat2 (v : Vault) (filesDir : List Str) (r : Str) : Option (List Str) :=
  if fsExists v filesDir && fsExists v (filesDir ++ [pathName r]) then
    some (filesDir ++ [pathName r])
  else none

/-- Strategy 3: `note_dir / r`. -/
def strat3 (v : Vault) (noteDir : List Str) (r : Str) : Option (List Str) :=
  if fsExists v (pyJoin noteDir r) then some (pyJoin noteDir r) else none

/-- Strategy 4: `vault_path / r`. -/
def strat4 (v : Vault) (r : Str) : Option (List Str) :=
  if fsExists v (pyJoin [] r) then some (pyJoin [] r) else none

/-- Strategy 5: the first `files_dir` entry whose name or stem matches
(guarded by `files_dir.exists()`). -/
def strat5 (v : Vault) (filesDir : List Str) (r : Str) : Option (List Str) :=
  if fsExists v filesDir then
    ((dirListing v filesDir).find?
        (fun e => e.1 == pathName r || pathStem e.1 == pathStem r)).map
      (fun e => filesDir ++ [e.1])
  else none

/-- Python `_resolve_file_path`: strip the reference, try the decoded form
through all five strategies, then the raw form (when different), then the
vault-wide basename search; on total failure append one record to
`unresolved_references` (returned as the second component). -/
def resolveFilePath (v : Vault) (noteDir filesDir : List Str) (notePath : Str) (ref₀ : Str) :
    Option (List Str) × List Unres :=
  let ref := pyStrip ref₀
  let refDec := unquote ref
  let forms := if refDec ≠ ref then [refDec, ref] else [ref]
  match forms.findSome? (tryForm v noteDir filesDir) with
  | some p => (some p, [])
  | none =>
    match searchVault v (pathName (unquote ref)) with
    | some p => (some p, [])
    | none => (none, [⟨notePath, ref⟩])

/-! ## Reference span discovery (`_find_file_references`)

The three `finditer` loops of the source interleave `refs.append` and (via
`_resolve_file_path`) `unresolved_references.append`; since resolution is a
pure function of the modelled filesystem, the loops are rendered as one
projection for the recorded references and one for the unresolved log, with
identical guards, and the final lists are the concatenations in source
order (embeds, then images, then file links). -/

/-- Matcher for `EMBED_PATTERN = !\[\[([^\]]+)\]\]`; payload is the inner
reference. -/
def embedM (_ : Option Char) (l : Str) : Option (Str × Nat) :=
  match l with
  | '!' :: '[' :: '[' :: t =>
    let ref := t.takeWhile (· ≠ ']')
    if ref = [] then none
    else
      match t.drop ref.length with
      | ']' :: ']' :: _ => some (ref, ref.length + 5)
      | _ => none
  | _ => none

/-- Matcher for `MD_IMAGE_PATTERN = !\[([^\]]*)\]\(([^)]+)\)`; payload is
`(alt, path)`. -/
def imageM (_ : Option Char) (l : Str) : Option ((Str × Str) × Nat) :=
  match l with
  | '!' :: '[' :: t =>
    let alt := t.takeWhile (· ≠ ']')
    match t.drop alt.length with
    | ']' :: '(' :: u =>
      let p := u.takeWhile (· ≠ ')')
      if p = [] then none
      else
        match u.drop p.length with
        | ')' :: _ => some ((alt, p), alt.length + p.length + 5)
        | _ => none
    | _ => none
  | _ => none

/-- Matcher for `MD_FILE_LINK_PATTERN = (?<!!)\[([^\]]+)\]\(([^)]+)\)`. -/
def fileLinkM (prev : Option Char) (l : Str) : Option ((Str × Str) × Nat) :=
  if prev = some '!' then none else linkM none l

/-- The `FILE_EXTENSIONS` whitelist. -/
def extWhitelist : List Str :=
  [str ".pdf", str ".doc", str ".docx", str ".xls", str ".xlsx", str ".ppt", str ".pptx",
   str ".png", str ".jpg", str ".jpeg", str ".gif", str ".webp", str ".svg", str ".bmp",
   str ".mp4", str ".mov", str ".webm", str ".avi", str ".mkv",
   str ".mp3", str ".wav", str ".ogg", str ".m4a", str ".flac",
   str ".zip", str ".tar", str ".gz", str ".rar", str ".7z",
   str ".txt", str ".csv", str ".json", str ".xml", str ".yaml", str ".yml",
   str ".html", str ".htm", str ".ipynb"]

/-- `path.startswith(('http://', 'https://', 'data:'))`. -/
def isWebPath (p : Str) : Bool :=
  (str "http://").isPrefixOf p || (str "https://").isPrefixOf p || (str "data:").isPrefixOf p

/-- `path.startswith(('http://', 'https://', 'data:', '#', 'mailto:'))`. -/
def isSkippedLinkPath (p : Str) : Bool :=
  isWebPath p || ['#'].isPrefixOf p || (str "mailto:").isPrefixOf p

/-- `any(path_lower.endswith(ext) for ext in FILE_EXTENSIONS)`. -/
def hasFileExt (p : Str) : Bool :=
  extWhitelist.any (fun e => e.isSuffixOf (toLowerStr p))

/-- The references recorded by the embed loop. -/
def embedRefs (v : Vault) (noteDir : List Str) (notePath : Str) (content : Str) :
    List FileRef :=
  (scanAll embedM content).filterMap (fun m =>
    ((resolveFilePath v noteDir (noteDir ++ [str "files"]) notePath m.2.1).1).map
      (fun p => ⟨slice content m.1 (m.1 + m.2.2), p, m.1, m.1 + m.2.2⟩))

/-- The unresolved records produced by the embed loop. -/
def embedUnresolved (v : Vault) (noteDir : List Str) (notePath : Str) (content : Str) :
    List Unres :=
  ((scanAll embedM content).map (fun m =>
    (resolveFilePath v noteDir (noteDir ++ [str "files"]) notePath m.2.1).2)).flatten

/-- The references recorded by the markdown-image loop (web and data URIs
skipped before resolution). -/
def imageRefs (v : Vault) (noteDir : List Str) (notePath : Str) (content : Str) :
    List FileRef :=
  (scanAll imageM content).filterMap (fun m =>
    if isWebPath m.2.1.2 then none
    else
      ((resolveFilePath v noteDir (noteDir ++ [str "files"]) notePath m.2.1.2).1).map
        (fun p => ⟨slice content m.1 (m.1 + m.2.2), p, m.1, m.1 + m.2.2⟩))

/-- The unresolved records produced by the markdown-image loop. -/
def imageUnresolved (v : Vault) (noteDir : List Str) (notePath : Str) (content : Str) :
    List Unres :=
  ((scanAll imageM content).map (fun m =>
    if isWebPath m.2.1.2 then []
    else (resolveFilePath v noteDir (noteDir ++ [str "files"]) notePath m.2.1.2).2)).flatten

/-- The `(start, end)` pairs in `matched_positions` when the file-link loop
runs: the spans of the recorded embed and image references. -/
def claimedSpans (v : Vault) (noteDir : List Str) (notePath : Str) (content : Str) :
    List (Nat × Nat) :=
  (embedRefs v noteDir notePath content ++ imageRefs v noteDir notePath content).map
    (fun r => (r.startPos, r.endPos))

/-- The references recorded by the generic file-link loop: skip spans
already claimed (by exact position), web/anchor/mailto paths, and paths
without a whitelisted extension. -/
def linkRefs (v : Vault) (noteDir : List Str) (notePath : Str) (content : Str) :
    List FileRef :=
  (scanAll fileLinkM content).filterMap (fun m =>
    if (claimedSpans v noteDir notePath content).contains (m.1, m.1 + m.2.2) then none
    else if isSkippedLinkPath m.2.1.2 then none
    else if !hasFileExt m.2.1.2 then none
    else
      ((resolveFilePath v noteDir (noteDir ++ [str "files"]) notePath m.2.1.2).1).map
        (fun p => ⟨slice content m.1 (m.1 + m.2.2), p, m.1, m.1 + m.2.2⟩))

/-- The unresolved records produced by the generic file-link loop. -/
def linkUnresolved (v : Vault) (noteDir : List Str) (notePath : Str) (content : Str) :
    List Unres :=
  ((scanAll fileLinkM content).map (fun m =>
    if (claimedSpans v noteDir notePath content).contains (m.1, m.1 + m.2.2) then []
    else if isSkippedLinkPath m.2.1.2 then []
    else if !hasFileExt m.2.1.2 then []
    else (resolveFilePath v noteDir (noteDir ++ [str "files"]) notePath m.2.1.2).2)).flatten

/-- Python `_find_file_references`: recorded references and the unresolved
log, in source order. -/
def findFileReferences (v : Vault) (noteDir : List Str) (notePath : Str) (content : Str) :
    List FileRef × List Unres :=
  (embedRefs v noteDir notePath content ++ imageRefs v noteDir notePath content ++
     linkRefs v noteDir notePath content,
   embedUnresolved v noteDir notePath content ++ imageUnresolved v noteDir notePath content ++
     linkUnresolved v noteDir notePath content)

/-! ## Frontmatter (`FRONTMATTER_PATTERN` and `_parse_frontmatter`) -/

/-- Consume `\s*\n` at the front of `l`: the greedy run of whitespace up to
and including its last newline; fails when the leading whitespace contains
no newline. -/
def wsThroughLastNl (l : Str) : Option Nat :=
  let w := l.takeWhile pyIsSpace
  let k := (w.reverse.dropWhile (· ≠ '\n')).length
  if k = 0 then none else some k

/-- Match `\n---\s*\n` at the front of `l`, returning the consumed length. -/
def closingAt (l : Str) : Option Nat :=
  match l with
  | '\n' :: '-' :: '-' :: '-' :: rest =>
    match wsThroughLastNl rest with
    | some k => some (4 + k)
    | none => none
  | _ => none

/-- Earliest offset at which `\n---\s*\n` matches (the non-greedy `(.*?)`
extends one character at a time until the closing delimiter matches). -/
def findClosing : Str → Option (Nat × Nat)
  | [] => none
  | c :: t =>
    match closingAt (c :: t) with
    | some n => some (0, n)
    | none => (findClosing t).map (fun r => (r.1 + 1, r.2))

/-- `FRONTMATTER_PATTERN.match(content)` for
`^---\s*\n(.*?)\n---\s*\n` (DOTALL): group 1 and the match end. -/
def frontmatterMatch (content : Str) : Option (Str × Nat) :=
  if (['-', '-', '-']).isPrefixOf content then
    match wsThroughLastNl (content.drop 3) with
    | none => none
    | some k =>
      match findClosing (content.drop (3 + k)) with
      | some (off, clen) => some (slice content (3 + k) (3 + k + off), 3 + k + off + clen)
      | none => none
  else none

/-- One line of `_parse_frontmatter`: split on the first colon, strip key
and value, insert; lines without a colon are ignored. -/
def fmLine (acc : List (Str × Str)) (line : Str) : List (Str × Str) :=
  if line.contains ':' then
    dictInsert (pyStrip (line.takeWhile (· ≠ ':')))
      (pyStrip ((line.dropWhile (· ≠ ':')).drop 1)) acc
  else acc

/-- Python `_parse_frontmatter`. -/
def parseFrontmatterText (t : Str) : List (Str × Str) :=
  (splitNl (pyStrip t)).foldl fmLine []

/-- The parts of `parse_file` that feed the block builder: frontmatter map,
body (content after the consumed frontmatter block), reference spans and
the unresolved log.  Title/date extraction concerns only the page title and
is out of scope of the claims. -/
structure NoteIR where
  frontmatter : List (Str × Str)
  body : Str
  refs : List FileRef
  unres : List Unres
deriving DecidableEq

/-- Python `parse_file` on already-read file contents. -/
def parseContent (v : Vault) (noteDir : List Str) (notePath : Str) (content : Str) : NoteIR :=
  let fmBody : List (Str × Str) × Str :=
    match frontmatterMatch content with
    | some (g, e) => (parseFrontmatterText g, content.drop e)
    | none => ([], content)
  let ru := findFileReferences v noteDir notePath fmBody.2
  ⟨fmBody.1, fmBody.2, ru.1, ru.2⟩

/-- The per-note pipeline the orchestrator runs: parse, then build blocks
from the body and the discovered references; also returns the unresolved
log accumulated while parsing. -/
def migrateNote (v : Vault) (noteDir : List Str) (notePath : Str)
    (upload : List Str → Option FileInfo) (ft : Str → Option Str) (content : Str) :
    List Block × List Unres :=
  let ir := parseContent v noteDir notePath content
  (buildBlocks upload ft ir.refs ir.body, ir.unres)

/-! ## Auxiliary definitions used by the statements below -/

/-- True exactly for the blocks that render a file reference: an uploaded
attachment block or the failure-placeholder callout. -/
def isAttachBlock : Block → Bool
  | .attach _ _ => true
  | .callout _ _ => true
  | _ => false

/-- Modelled from the spec (claim C7 wording), for comparison with the
code's `resolveFilePath`: the six lookup strategies tried strictly in
order, each against the URL-decoded and then the raw form of the
reference, stopping at the first match. -/
def resolveSpecOrdered (v : Vault) (noteDir filesDir : List Str) (ref₀ : Str) :
    Option (List Str) :=
  let ref := pyStrip ref₀
  let refDec := unquote ref
  let forms := if refDec ≠ ref then [refDec, ref] else [ref]
  (forms.findSome? (strat1 v filesDir)) <|>
  (forms.findSome? (strat2 v filesDir)) <|>
  (forms.findSome? (strat3 v noteDir)) <|>
  (forms.findSome? (strat4 v)) <|>
  (forms.findSome? (strat5 v filesDir)) <|>
  searchVault v (pathName refDec) <|> searchVault v (pathName ref)

/-- A title fetcher that never produces a title (offline behaviour). -/
def noft : Str → Option Str := fun _ => none

/-- An uploader that returns `None` for every file (`--skip-files`). -/
def noup : List Str → Option FileInfo := fun _ => none

/-- An uploader for which every upload succeeds with id `id` and block type
`image`. -/
def okup : List Str → Option FileInfo := fun p =>
  some ⟨some (str "id"), str "image", match p.getLast? with | some n => n | none => []⟩

/-- Vault with a single file `c.pdf` at the root. -/
def vaultC : Vault := [(str "c.pdf", .file)]

/-- Vault with `d/files/a%20b.png` and `d/a b.png`. -/
def vaultD : Vault :=
  [(str "d", .dir [(str "files", .dir [(str "a%20b.png", .file)]), (str "a b.png", .file)])]

/-- Vault with `a.png` and `b.png` at the root. -/
def vaultAB : Vault := [(str "a.png", .file), (str "b.png", .file)]

/-! ## Claim theorems -/

/-- Claim C1 (code bug evidence): on the failing input `- [ ] task`, the
builder emits a Bullet block whose text is `[ ] task`, not a Todo block:
the `- ` branch of the dispatch precedes the `- [ ] `/`- [x] ` branches in
the source's `elif` chain, so every todo line is captured as a bullet and
the todo branches (and `_todo_block`) are dead code.  The same happens for
checked items. -/
theorem C1_todo_shadowed_by_bullet :
    buildBlocks noup noft [] (str "- [ ] task\n- [x] done") =
      [.bullet [⟨str "[ ] task", none, none⟩], .bullet [⟨str "[x] done", none, none⟩]] := by
  decide

/-- Claim C2 (counterexample): segmenting the empty line yields the empty
run list, not a single empty run — `_rich_text` returns `[]` on falsy input
before its non-empty fallback is reached — and consequently the heading
built from the line `# ` carries an empty rich-text array. -/
theorem C2_empty_line_counterexample :
    richText noft [] = [] ∧ (richText noft []).length ≠ 1 ∧
    buildBlocks noup noft [] (str "# ") = [.heading 1 []] := by
  decide

/-- Claim C2 (amended): segmentation of an empty line yields the empty run
list (so a prefix-only textual line produces a block with an empty run
array), while segmentation of any non-empty line yields at least one run
(the single-empty-run fallback applies only there). -/
theorem C2_segmentation_emptiness (ft : Str → Option Str) (s : Str) (h : s ≠ []) :
    richText ft s ≠ [] := by
  unfold richText
  simp only [if_neg h]
  split
  · simp
  · assumption

/-- Witness for `C2_segmentation_emptiness` at the line `x`. -/
theorem C2_segmentation_emptiness_witness :
    str "x" ≠ ([] : Str) ∧ richText noft (str "x") ≠ [] :=
  ⟨by decide, C2_segmentation_emptiness noft (str "x") (by decide)⟩

/-- Claim C4 (counterexample): a heading line does not go through wikilink
normalization — `# [[target|label]]` produces a heading whose single run
still reads `[[target|label]]` rather than `label` (the heading branches
pass `line[2:]` directly to `_rich_text`, without `_convert_wikilinks`). -/
theorem C4_heading_keeps_wikilink :
    buildBlocks noup noft [] (str "# [[target|label]]") =
      [.heading 1 [⟨str "[[target|label]]", none, none⟩]] ∧
    str "[[target|label]]" ≠ str "label" := by
  decide

/-- Claim C9 (counterexample): the fenced block ` ```JS\na\nb\n``` `
produces one Code block whose language is `javascript`, not `JS`: the
builder lowercases the language token and maps it through its alias
table. -/
theorem C9_language_is_mapped :
    buildBlocks noup noft [] (str "```JS\na\nb\n```") =
      [.code (str "a\nb") (str "javascript")] ∧
    str "javascript" ≠ str "JS" := by
  decide

/-- Claim C5 (counterexample): on the body `![a [b](c.pdf) d](x.png)` with
`c.pdf` present, the image rule records the span `[0, 14)` (token
`![a [b](c.pdf)`) and the generic file-link rule records the overlapping
span `[4, 14)` (token `[b](c.pdf)`): the duplicate check only skips spans
with exactly equal endpoints, so two attachment spans from different rules
cover the same text region. -/
theorem C5_overlapping_spans_counterexample :
    (findFileReferences vaultC [] (str "n.md") (str "![a [b](c.pdf) d](x.png)")).1 =
      [⟨str "![a [b](c.pdf)", [str "c.pdf"], 0, 14⟩,
       ⟨str "[b](c.pdf)", [str "c.pdf"], 4, 14⟩] ∧
    (4 : Nat) < 14 ∧ (0 : Nat) ≠ 4 := by
  decide

/-- Claim C6 (counterexample): for the body `see [x](missing.pdf) end` in
an empty vault, resolution fails (no attachment block, one unresolved
record), but the paragraph produced from the line renders the markdown
link as its link text `x` only — the literal token `[x](missing.pdf)` is
not preserved in the rendered rich text. -/
theorem C6_unresolved_token_not_rendered_literally :
    migrateNote [] [] (str "n.md") noup noft (str "see [x](missing.pdf) end") =
      ([.paragraph [⟨str "see ", none, none⟩, ⟨str "x", none, none⟩, ⟨str " end", none, none⟩]],
       [⟨str "n.md", str "missing.pdf"⟩]) ∧
    containsSub (str "missing.pdf") (str "x") = false := by
  decide

/-- Claim C7 (counterexample): with `d/files/a%20b.png` and `d/a b.png` on
disk, resolving `a%20b.png` from note directory `d` returns `d/a b.png`:
the code iterates forms outermost (all five strategies for the decoded
form first), so the decoded form's strategy 3 wins over the raw form's
strategy 1, while the claim's strategy-major order would return
`d/files/a%20b.png`. -/
theorem C7_form_major_counterexample :
    resolveFilePath vaultD [str "d"] [str "d", str "files"] (str "n.md") (str "a%20b.png") =
      (some [str "d", str "a b.png"], []) ∧
    resolveSpecOrdered vaultD [str "d"] [str "d", str "files"] (str "a%20b.png") =
      some [str "d", str "files", str "a%20b.png"] ∧
    some [str "d", str "a b.png"] ≠ some [str "d", str "files", str "a%20b.png"] := by
  decide

/-- Claim C10 (counterexample): on the line `![[a.png]] and ![[b.png]]`
with both files resolved and uploaded, only the first map entry becomes an
attachment; the second token survives only inside the trailing paragraph,
which is wikilink-normalized before segmentation, so its rendered text is
`and !b.png` — the literal token `![[b.png]]` is not emitted. -/
theorem C10_second_token_not_literal :
    migrateNote vaultAB [] (str "n.md") okup noft (str "![[a.png]] and ![[b.png]]") =
      ([.attach (str "image") (str "id"), .paragraph [⟨str "and !b.png", none, none⟩]], []) ∧
    containsSub (str "![[b.png]]") (str "and !b.png") = false := by
  decide

/-- The reference branch of the line loop never emits more than one
attachment or callout block per line. -/
theorem refBlocks_at_most_one_attach (ft : Str → Option Str) (tok : Str)
    (fi : Option FileInfo) (line : Str) :
    (refBlocks ft tok fi line).countP isAttachBlock ≤ 1 := by
  have hpara : ∀ (s : Str),
      (if pyStrip s ≠ [] then [Block.paragraph (richText ft (convertWikilinks (pyStrip s)))]
       else []).countP isAttachBlock = 0 := by
    intro s
    split <;> simp [List.countP_cons, List.countP_nil, isAttachBlock]
  have hlen : ∀ (l : List Block), l.length ≤ 1 → l.countP isAttachBlock ≤ 1 :=
    fun l h => Nat.le_trans (List.countP_le_length _) h
  simp only [refBlocks, List.countP_append, hpara]
  rcases fi with _ | info
  · simp
  · simp only [Nat.zero_add, Nat.add_zero]
    apply hlen
    split
    · split <;> simp
    · simp

/-- Every block the reference branch emits is either the (single)
attachment/callout for the token or a paragraph built from the text around
it. -/
theorem refBlocks_shape (ft : Str → Option Str) (tok : Str) (fi : Option FileInfo)
    (line : Str) :
    ∀ b ∈ refBlocks ft tok fi line,
      isAttachBlock b = true ∨ ∃ rt, b = Block.paragraph rt := by
  intro b hb
  simp only [refBlocks] at hb
  rcases List.mem_append.mp hb with h | h
  · rcases List.mem_append.mp h with h | h
    · split at h
      · rcases List.mem_singleton.mp h with rfl
        exact Or.inr ⟨_, rfl⟩
      · simp at h
    · split at h
      · split at h
        · split at h
          · rcases List.mem_singleton.mp h with rfl
            rename_i hfb
            left
            unfold fileBlockOf at hfb
            split at hfb
            · split at hfb
              · cases hfb
              · injection hfb with h'
                subst h'
                simp [isAttachBlock]
            · cases hfb
          · rcases List.mem_singleton.mp h with rfl
            left
            simp [isAttachBlock]
        · rcases List.mem_singleton.mp h with rfl
          left
          simp [isAttachBlock]
      · simp at h
  · split at h
    · rcases List.mem_singleton.mp h with rfl
      exact Or.inr ⟨_, rfl⟩
    · simp at h

/-- The first map entry (in insertion order) whose token occurs in the
line is the one the loop finds. -/
theorem find_first_token (line : Str) (tok : Str) (fi : Option FileInfo)
    (post : List (Str × Option FileInfo)) :
    ∀ (pre : List (Str × Option FileInfo)),
      (∀ e ∈ pre, containsSub e.1 line = false) → containsSub tok line = true →
      (pre ++ (tok, fi) :: post).find? (fun e => containsSub e.1 line) = some (tok, fi) := by
  intro pre
  induction pre with
  | nil =>
    intro _ htok
    rw [List.nil_append]
    exact List.find?_cons_of_pos _ htok
  | cons a t ih =>
    intro hp htok
    rw [List.cons_append, List.find?_cons_of_neg _ (by simp [hp a (List.mem_cons_self a t)])]
    exact ih (fun e he => hp e (List.mem_cons_of_mem _ he)) htok

/-- Claim C10 (amended, universal): (i) the reference branch emits at most
one attachment/callout block per line; (ii) when a line outside a fence
contains the token of some map entry, the loop processes the line with the
first matching entry in map-iteration (insertion) order, emitting exactly
the blocks of `refBlocks` for that token before continuing with the
remaining lines — so no other token on the line becomes an attachment;
(iii) every other block the branch emits is a paragraph built from the
text before/after the first token (which then undergoes wikilink
normalization and segmentation, see `C10_second_token_not_literal`); and
(iv) the concrete two-token line behaves accordingly end to end. -/
theorem C10_first_reference_wins :
    (∀ (ft : Str → Option Str) (tok : Str) (fi : Option FileInfo) (line : Str),
      (refBlocks ft tok fi line).countP isAttachBlock ≤ 1) ∧
    (∀ (ft : Str → Option Str) (fim pre post : List (Str × Option FileInfo))
        (tok : Str) (fi : Option FileInfo) (line : Str) (rest : List Str)
        (lang : Str) (acc : List Str),
      fim = pre ++ (tok, fi) :: post →
      (∀ e ∈ pre, containsSub e.1 line = false) →
      containsSub tok line = true →
      fenceTok.isPrefixOf line = false →
      buildLoop ft fim (line :: rest) false lang acc =
        refBlocks ft tok fi line ++ buildLoop ft fim rest false lang acc) ∧
    (∀ (ft : Str → Option Str) (tok : Str) (fi : Option FileInfo) (line : Str),
      ∀ b ∈ refBlocks ft tok fi line,
        isAttachBlock b = true ∨ ∃ rt, b = Block.paragraph rt) ∧
    migrateNote vaultAB [] (str "n.md") okup noft (str "start ![[a.png]] mid ![[b.png]] end") =
      ([.paragraph [⟨str "start", none, none⟩], .attach (str "image") (str "id"),
        .paragraph [⟨str "mid !b.png end", none, none⟩]], []) := by
  refine ⟨refBlocks_at_most_one_attach, ?_, refBlocks_shape, by decide⟩
  intro ft fim pre post tok fi line rest lang acc hfim hpre htok hfence
  have hfind : fim.find? (fun e => containsSub e.1 line) = some (tok, fi) := by
    rw [hfim]
    exact find_first_token line tok fi post pre hpre htok
  simp only [buildLoop, hfence, Bool.false_eq_true, if_false, hfind]

/-- Witness for `C10_first_reference_wins` at a one-entry map and the line
`x ![[a.png]] y`. -/
theorem C10_first_reference_wins_witness :
    buildLoop noft [(str "![[a.png]]", some ⟨some (str "id"), str "image", str "a.png"⟩)]
        [str "x ![[a.png]] y"] false [] [] =
      refBlocks noft (str "![[a.png]]")
        (some ⟨some (str "id"), str "image", str "a.png"⟩) (str "x ![[a.png]] y") ++
      buildLoop noft [(str "![[a.png]]", some ⟨some (str "id"), str "image", str "a.png"⟩)]
        [] false [] [] :=
  C10_first_reference_wins.2.1 noft
    [(str "![[a.png]]", some ⟨some (str "id"), str "image", str "a.png"⟩)] [] []
    (str "![[a.png]]") (some ⟨some (str "id"), str "image", str "a.png"⟩)
    (str "x ![[a.png]] y") [] [] [] rfl (by decide) (by decide) (by decide)

/-! ### Claim C3: the 2000-character cap -/

/-- Every chunk produced by the splitting loop is at most 2000 long. -/
theorem chunksGo_length_le (fuel : Nat) (s : Str) :
    ∀ c ∈ chunksGo fuel s, c.length ≤ 2000 := by
  induction fuel generalizing s with
  | zero => simp [chunksGo]
  | succ f ih =>
    cases s with
    | nil => simp [chunksGo]
    | cons a t =>
      intro c hc
      simp only [chunksGo, List.mem_cons] at hc
      rcases hc with h | h
      · subst h; exact List.length_take_le 2000 (a :: t)
      · exact ih _ c h

/-- With enough fuel, the chunks concatenate back to the input. -/
theorem chunksGo_flatten (fuel : Nat) (s : Str) (h : s.length ≤ fuel) :
    (chunksGo fuel s).flatten = s := by
  induction fuel generalizing s with
  | zero =>
    have : s = [] := List.eq_nil_of_length_eq_zero (Nat.le_zero.mp h)
    subst this; rfl
  | succ f ih =>
    cases s with
    | nil => rfl
    | cons a t =>
      have hd : ((a :: t).drop 2000).length ≤ f := by
        rw [List.length_drop]
        omega
      simp only [chunksGo, List.flatten_cons, ih _ hd]
      exact List.take_append_drop 2000 (a :: t)

/-- Every run `classifyPart` produces is at most 2000 long. -/
theorem classifyPart_content_le (part : Str) :
    ∀ r ∈ classifyPart part, r.content.length ≤ 2000 := by
  intro r hr
  unfold classifyPart at hr
  split at hr
  · simp at hr
  · rcases List.mem_map.mp hr with ⟨c, hc, rfl⟩
    exact chunksGo_length_le _ _ c hc

/-- Every run `_parse_formatted_text` produces is at most 2000 long. -/
theorem parseFormattedText_content_le (s : Str) :
    ∀ r ∈ parseFormattedText s, r.content.length ≤ 2000 := by
  intro r hr
  unfold parseFormattedText at hr
  split at hr
  · simp at hr
  · rcases List.mem_flatten.mp hr with ⟨l, hl, hrl⟩
    rcases List.mem_map.mp hl with ⟨p, _, rfl⟩
    exact classifyPart_content_le p r hrl

/-- Every run the bare-URL fold produces is at most 2000 long. -/
theorem textUrlGo_content_le (ft : Str → Option Str) (text : Str)
    (ms : List (Nat × Str × Nat)) :
    ∀ le r, r ∈ textUrlGo ft text ms le → r.content.length ≤ 2000 := by
  induction ms with
  | nil =>
    intro le r hr
    unfold textUrlGo at hr
    split at hr
    · exact parseFormattedText_content_le _ r hr
    · simp at hr
  | cons m rest ih =>
    obtain ⟨i, tok, n⟩ := m
    intro le r hr
    rcases hsan : sanitizeUrl (rstripChars puncts tok) with _ | url
    · simp only [textUrlGo, hsan] at hr
      exact ih le r hr
    · simp only [textUrlGo, hsan] at hr
      rcases List.mem_append.mp hr with h | h
      · split at h
        · exact parseFormattedText_content_le _ r h
        · simp at h
      · rcases List.mem_cons.mp h with h | h
        · subst h; exact List.length_take_le 2000 _
        · exact ih _ r h

/-- Every run `_parse_text_with_urls` produces is at most 2000 long. -/
theorem parseTextWithUrls_content_le (ft : Str → Option Str) (text : Str) :
    ∀ r ∈ parseTextWithUrls ft text, r.content.length ≤ 2000 := by
  intro r hr
  unfold parseTextWithUrls at hr
  split at hr
  · simp at hr
  · split at hr
    · exact parseFormattedText_content_le _ r hr
    · exact textUrlGo_content_le ft text _ 0 r hr

/-- Every run the markdown-link fold produces is at most 2000 long. -/
theorem richGo_content_le (ft : Str → Option Str) (text : Str)
    (ms : List (Nat × (Str × Str) × Nat)) :
    ∀ le r, r ∈ richGo ft text ms le → r.content.length ≤ 2000 := by
  induction ms with
  | nil =>
    intro le r hr
    unfold richGo at hr
    split at hr
    · exact parseTextWithUrls_content_le _ _ r hr
    · simp at hr
  | cons m rest ih =>
    obtain ⟨i, ⟨ltxt, lurl⟩, n⟩ := m
    intro le r hr
    rcases hsan : sanitizeUrl lurl with _ | url
    all_goals simp only [richGo, hsan] at hr
    all_goals rcases List.mem_append.mp hr with h | h
    · rcases List.mem_append.mp h with h | h
      · split at h
        · exact parseTextWithUrls_content_le _ _ r h
        · simp at h
      · exact parseFormattedText_content_le _ r h
    · exact ih _ r h
    · rcases List.mem_append.mp h with h | h
      · split at h
        · exact parseTextWithUrls_content_le _ _ r h
        · simp at h
      · rcases List.mem_singleton.mp h with rfl
        exact List.length_take_le 2000 _
    · exact ih _ r h

/-- Claim C3 (amended): every run produced by rich-text segmentation has
content of length at most 2000; within `_parse_formatted_text` the cap is
enforced by lossless chunking (the chunks concatenate back to the styled
content, all carrying the same annotation), but markdown-link and bare-URL
runs are truncated to their first 2000 characters instead of being split
(see the counterexample `C3_link_text_dropped`). -/
theorem C3_run_length_cap :
    (∀ (ft : Str → Option Str) (line : Str) (r : TextRun),
        r ∈ richText ft line → r.content.length ≤ 2000) ∧
    (∀ s : Str, (chunks2000 s).flatten = s) := by
  constructor
  · intro ft line r hr
    unfold richText at hr
    split at hr
    · simp at hr
    · split at hr
      · rcases List.mem_singleton.mp hr with rfl
        simp [emptyRun]
      · exact richGo_content_le ft line _ 0 r hr
  · intro s
    exact chunksGo_flatten s.length s le_rfl

/-- Witness for `C3_run_length_cap` at the line `hi` and the string `ab`. -/
theorem C3_run_length_cap_witness :
    ((⟨str "hi", none, none⟩ : TextRun) ∈ richText noft (str "hi") →
      (str "hi").length ≤ 2000) ∧
    (chunks2000 (str "ab")).flatten = str "ab" :=
  ⟨fun h => C3_run_length_cap.1 noft (str "hi") _ h, C3_run_length_cap.2 (str "ab")⟩

/-- `takeWhile` passes over a replicated block whose element satisfies the
predicate. -/
theorem takeWhile_replicate_append (p : Char → Bool) (n : Nat) (a : Char) (l : Str)
    (h : p a = true) :
    (List.replicate n a ++ l).takeWhile p = List.replicate n a ++ l.takeWhile p := by
  induction n with
  | zero => rfl
  | succ k ih => simp [List.replicate_succ, List.takeWhile_cons, h, ih]

/-- The link scanner produces no match on the empty remainder. -/
theorem scanGo_linkM_nil (fuel : Nat) (prev : Option Char) (i : Nat) :
    scanGo linkM fuel prev i [] = [] := by
  cases fuel <;> rfl

/-- Evaluation of `linkM` on `[aaa…a](http://a.com)`. -/
theorem linkM_replicate (n : Nat) (h : 1 ≤ n) :
    linkM none ('[' :: (List.replicate n 'a' ++ str "](http://a.com)")) =
      some ((List.replicate n 'a', str "http://a.com"), n + 16) := by
  have hne : List.replicate n 'a' ≠ [] := by
    cases n with
    | zero => omega
    | succ k => simp [List.replicate_succ]
  have htw : (List.replicate n 'a' ++ str "](http://a.com)").takeWhile (· ≠ ']') =
      List.replicate n 'a' := by
    rw [takeWhile_replicate_append (· ≠ ']') n 'a' _ (by decide),
      show (str "](http://a.com)").takeWhile (· ≠ ']') = [] from by decide]
    simp
  simp only [linkM, htw]
  rw [if_pos trivial, if_neg hne]
  rw [show (List.replicate n 'a' ++ str "](http://a.com)").drop (List.replicate n 'a').length =
      str "](http://a.com)" from List.drop_left _ _]
  rw [if_pos (by decide : (str "](http://a.com)").take 2 = [']', '('])]
  rw [show (str "](http://a.com)").drop 2 = str "http://a.com)" from by decide]
  rw [show (str "http://a.com)").takeWhile (· ≠ ')') = str "http://a.com" from by decide]
  rw [if_neg (by decide : ¬ str "http://a.com" = [])]
  rw [if_pos (by decide :
    ((str "http://a.com)").drop (str "http://a.com").length).take 1 = [')'])]
  rw [show (str "http://a.com").length = 12 from by decide, List.length_replicate]

/-- One successful step of the scanning loop. -/
theorem scanGo_step (m : Option Char → Str → Option (α × Nat)) (fuel : Nat)
    (prev : Option Char) (i : Nat) (l : Str) (a : α) (k : Nat)
    (hm : m prev l = some (a, k)) :
    scanGo m (fuel + 1) prev i l =
      (i, a, k) :: scanGo m fuel ((l.drop (k - 1)).head?) (i + k) (l.drop k) := by
  simp only [scanGo, hm]

/-- Evaluation of rich-text segmentation on a markdown link whose text is
`n` copies of `a`: one run, its content truncated to 2000 characters. -/
theorem richText_replicate_link (ft : Str → Option Str) (n : Nat) (h : 1 ≤ n) :
    richText ft ('[' :: (List.replicate n 'a' ++ str "](http://a.com)")) =
      [⟨(List.replicate n 'a').take 2000, none, some (str "http://a.com")⟩] := by
  have htext : ('[' :: (List.replicate n 'a' ++ str "](http://a.com)")).length = n + 16 := by
    simp only [List.length_cons, List.length_append, List.length_replicate,
      show (str "](http://a.com)").length = 15 from by decide]
  have hdropall :
      ('[' :: (List.replicate n 'a' ++ str "](http://a.com)")).drop (n + 16) = [] := by
    rw [← htext, List.drop_length]
  have hscan : scanAll linkM ('[' :: (List.replicate n 'a' ++ str "](http://a.com)")) =
      [(0, (List.replicate n 'a', str "http://a.com"), n + 16)] := by
    unfold scanAll
    rw [htext, scanGo_step linkM (n + 16) none 0 _ _ _ (linkM_replicate n h)]
    rw [hdropall, scanGo_linkM_nil]
  have hgo : richGo ft ('[' :: (List.replicate n 'a' ++ str "](http://a.com)"))
      [(0, (List.replicate n 'a', str "http://a.com"), n + 16)] 0 =
      [⟨(List.replicate n 'a').take 2000, none, some (str "http://a.com")⟩] := by
    simp only [richGo,
      show sanitizeUrl (str "http://a.com") = some (str "http://a.com") from by decide]
    rw [htext]
    simp
  unfold richText
  rw [if_neg (by simp : ¬('[' :: (List.replicate n 'a' ++ str "](http://a.com)")) = [])]
  rw [hscan, hgo]
  simp

/-- Claim C3 (counterexample): a markdown link whose text is 2001 copies of
`a` yields a single run holding only the first 2000 of them — the overflow
is dropped, not split into a continuation run, so the concatenated content
of the produced runs is shorter than the original link text. -/
theorem C3_link_text_dropped :
    richText noft ('[' :: (List.replicate 2001 'a' ++ str "](http://a.com)")) =
      [⟨List.replicate 2000 'a', none, some (str "http://a.com")⟩] ∧
    (((richText noft ('[' :: (List.replicate 2001 'a' ++ str "](http://a.com)"))).map
        TextRun.content).flatten).length ≠ 2001 := by
  have h := richText_replicate_link noft 2001 (by omega)
  have htake : (List.replicate 2001 'a').take 2000 = List.replicate 2000 'a' := by
    rw [List.take_replicate]
    norm_num
  constructor
  · rw [h, htake]
  · rw [h, htake]
    simp only [List.map_cons, List.map_nil, List.flatten_cons, List.flatten_nil,
      List.append_nil, List.length_replicate]
    omega

/-! ### Claim C4: wikilink conversion per block kind -/

/-- Claim C4 (amended): bullet, numbered, quote (and, per C1, the shadowed
todo lines, which are bullets) and paragraph lines are wikilink-normalized
before segmentation, but heading lines are not: the heading branches pass
`line[2:]` straight to rich-text segmentation. -/
theorem C4_wikilink_conversion_by_kind (ft : Str → Option Str) (t : Str) :
    dispatchLine ft ('#' :: ' ' :: t) = some (.heading 1 (richText ft t)) ∧
    dispatchLine ft ('-' :: ' ' :: t) = some (.bullet (richText ft (convertWikilinks t))) ∧
    dispatchLine ft ('1' :: '.' :: ' ' :: t) =
      some (.numbered (richText ft (convertWikilinks t))) ∧
    dispatchLine ft ('>' :: ' ' :: t) = some (.quote (richText ft (convertWikilinks t))) ∧
    ((['#', ' ']).isPrefixOf t = false → (['#', '#', ' ']).isPrefixOf t = false →
      (['#', '#', '#', ' ']).isPrefixOf t = false → (['-', ' ']).isPrefixOf t = false →
      (['*', ' ']).isPrefixOf t = false → numberedPre t = none →
      (['-', ' ', '[', ' ', ']', ' ']).isPrefixOf t = false →
      (['-', ' ', '[', 'x', ']', ' ']).isPrefixOf t = false →
      (['-', ' ', '[', 'X', ']', ' ']).isPrefixOf t = false →
      (['>', ' ']).isPrefixOf t = false → dividerStrs.contains (pyStrip t) = false →
      pyStrip t ≠ [] →
      dispatchLine ft t = some (.paragraph (richText ft (convertWikilinks t)))) := by
  refine ⟨by simp +decide [dispatchLine, List.isPrefixOf],
    by simp +decide [dispatchLine, List.isPrefixOf],
    by simp +decide [dispatchLine, List.isPrefixOf, numberedPre],
    by simp +decide [dispatchLine, List.isPrefixOf, numberedPre], ?_⟩
  intro h1 h2 h3 h4 h5 h6 h7 h8 h9 h10 h11 h12
  simp only [dispatchLine, h1, h2, h3, h4, h5, h6, h7, h8, h9, h10, h11, h12]
  simp [h12]

/-- Witness for `C4_wikilink_conversion_by_kind` at `t = see [[a|b]]`. -/
theorem C4_wikilink_conversion_by_kind_witness :
    dispatchLine noft ('#' :: ' ' :: str "see [[a|b]]") =
      some (.heading 1 (richText noft (str "see [[a|b]]"))) ∧
    dispatchLine noft (str "see [[a|b]]") =
      some (.paragraph (richText noft (convertWikilinks (str "see [[a|b]]")))) :=
  ⟨(C4_wikilink_conversion_by_kind noft (str "see [[a|b]]")).1,
   (C4_wikilink_conversion_by_kind noft (str "see [[a|b]]")).2.2.2.2
     (by decide) (by decide) (by decide) (by decide) (by decide) (by decide)
     (by decide) (by decide) (by decide) (by decide) (by decide) (by decide)⟩

/-! ### Claim C5: span discipline of the three detection rules -/

/-- Every match reported by the scanner starts at or after the current scan
position. -/
theorem scanGo_start_le (m : Option Char → Str → Option (α × Nat)) (fuel : Nat) :
    ∀ prev i l, ∀ e ∈ scanGo m fuel prev i l, i ≤ e.1 := by
  induction fuel with
  | zero => intro prev i l e he; simp [scanGo] at he
  | succ f ih =>
    intro prev i l e he
    rcases hm : m prev l with _ | ⟨a, n⟩
    · cases l with
      | nil => simp [scanGo, hm] at he
      | cons c t =>
        simp only [scanGo, hm] at he
        exact Nat.le_trans (Nat.le_succ i) (ih _ _ _ e he)
    · simp only [scanGo, hm] at he
      rcases List.mem_cons.mp he with rfl | he
      · exact Nat.le_refl i
      · exact Nat.le_trans (Nat.le_add_right i n) (ih _ _ _ e he)

/-- Matches of one `finditer` scan are non-overlapping and in increasing
position order: each match ends at or before the next one starts. -/
theorem scanGo_chain (m : Option Char → Str → Option (α × Nat)) (fuel : Nat) :
    ∀ prev i l,
      List.Pairwise (fun a b : Nat × α × Nat => a.1 + a.2.2 ≤ b.1) (scanGo m fuel prev i l) := by
  induction fuel with
  | zero => intro prev i l; simp [scanGo]
  | succ f ih =>
    intro prev i l
    rcases hm : m prev l with _ | ⟨a, n⟩
    · cases l with
      | nil => simp [scanGo, hm]
      | cons c t => simp only [scanGo, hm]; exact ih _ _ _
    · simp only [scanGo, hm]
      exact List.Pairwise.cons (fun e he => scanGo_start_le m f _ _ _ e he) (ih _ _ _)

/-- The embed rule's recorded spans are pairwise disjoint. -/
theorem embedRefs_disjoint (v : Vault) (nd : List Str) (np content : Str) :
    List.Pairwise (fun r r' : FileRef => r.endPos ≤ r'.startPos)
      (embedRefs v nd np content) := by
  unfold embedRefs
  refine List.Pairwise.filterMap _ ?_ (scanGo_chain embedM _ none 0 content)
  intro a a' hR b hb b' hb'
  rcases Option.map_eq_some'.mp (Option.mem_def.mp hb) with ⟨p, _, rfl⟩
  rcases Option.map_eq_some'.mp (Option.mem_def.mp hb') with ⟨p', _, rfl⟩
  simpa using hR

/-- The image rule's recorded spans are pairwise disjoint. -/
theorem imageRefs_disjoint (v : Vault) (nd : List Str) (np content : Str) :
    List.Pairwise (fun r r' : FileRef => r.endPos ≤ r'.startPos)
      (imageRefs v nd np content) := by
  unfold imageRefs
  refine List.Pairwise.filterMap _ ?_ (scanGo_chain imageM _ none 0 content)
  intro a a' hR b hb b' hb'
  rw [Option.mem_def] at hb hb'
  split at hb
  · cases hb
  · split at hb'
    · cases hb'
    · rcases Option.map_eq_some'.mp hb with ⟨p, _, rfl⟩
      rcases Option.map_eq_some'.mp hb' with ⟨p', _, rfl⟩
      simpa using hR

/-- The generic file-link rule's recorded spans are pairwise disjoint. -/
theorem linkRefs_disjoint (v : Vault) (nd : List Str) (np content : Str) :
    List.Pairwise (fun r r' : FileRef => r.endPos ≤ r'.startPos)
      (linkRefs v nd np content) := by
  unfold linkRefs
  refine List.Pairwise.filterMap _ ?_ (scanGo_chain fileLinkM _ none 0 content)
  intro a a' hR b hb b' hb'
  rw [Option.mem_def] at hb hb'
  split at hb
  · cases hb
  · split at hb
    · cases hb
    · split at hb
      · cases hb
      · split at hb'
        · cases hb'
        · split at hb'
          · cases hb'
          · split at hb'
            · cases hb'
            · rcases Option.map_eq_some'.mp hb with ⟨p, _, rfl⟩
              rcases Option.map_eq_some'.mp hb' with ⟨p', _, rfl⟩
              simpa using hR

/-- A span recorded by the file-link rule was not in `matched_positions`. -/
theorem linkRefs_not_claimed (v : Vault) (nd : List Str) (np content : Str) :
    ∀ l ∈ linkRefs v nd np content,
      (claimedSpans v nd np content).contains (l.startPos, l.endPos) = false := by
  intro l hl
  unfold linkRefs at hl
  rcases List.mem_filterMap.mp hl with ⟨m, _, hf⟩
  by_cases hc : (claimedSpans v nd np content).contains (m.1, m.1 + m.2.2) = true
  · rw [if_pos hc] at hf
    cases hf
  · rw [if_neg hc] at hf
    split at hf
    · cases hf
    · split at hf
      · cases hf
      · rcases Option.map_eq_some'.mp hf with ⟨p, _, rfl⟩
        simpa using hc

/-- Claim C5 (amended): within each detection rule the recorded spans are
pairwise disjoint, and the generic file-link rule never records a span with
exactly the byte range of a recorded embed or image span; spans of
different rules may, however, partially overlap (counterexample
`C5_overlapping_spans_counterexample`), since the duplicate check compares
exact `(start, end)` pairs only. -/
theorem C5_span_discipline :
    (∀ (v : Vault) (nd : List Str) (np content : Str),
      List.Pairwise (fun r r' : FileRef => r.endPos ≤ r'.startPos)
        (embedRefs v nd np content) ∧
      List.Pairwise (fun r r' : FileRef => r.endPos ≤ r'.startPos)
        (imageRefs v nd np content) ∧
      List.Pairwise (fun r r' : FileRef => r.endPos ≤ r'.startPos)
        (linkRefs v nd np content)) ∧
    (∀ (v : Vault) (nd : List Str) (np content : Str) (l r : FileRef),
      l ∈ linkRefs v nd np content →
      r ∈ embedRefs v nd np content ++ imageRefs v nd np content →
      ¬(l.startPos = r.startPos ∧ l.endPos = r.endPos)) := by
  constructor
  · intro v nd np content
    exact ⟨embedRefs_disjoint v nd np content, imageRefs_disjoint v nd np content,
      linkRefs_disjoint v nd np content⟩
  · intro v nd np content l r hl hr heq
    have hcf := linkRefs_not_claimed v nd np content l hl
    have hmem : (l.startPos, l.endPos) ∈ claimedSpans v nd np content := by
      unfold claimedSpans
      rw [heq.1, heq.2]
      exact List.mem_map_of_mem _ hr
    have htrue : (claimedSpans v nd np content).contains (l.startPos, l.endPos) = true :=
      List.elem_iff.mpr hmem
    rw [htrue] at hcf
    simp at hcf

/-- Witness for `C5_span_discipline` at the C5 counterexample input: the
link span `[4, 14)` is distinct (as an exact range) from the image span
`[0, 14)`. -/
theorem C5_span_discipline_witness :
    (⟨str "[b](c.pdf)", [str "c.pdf"], 4, 14⟩ : FileRef) ∈
      linkRefs vaultC [] (str "n.md") (str "![a [b](c.pdf) d](x.png)") ∧
    ¬((4 : Nat) = 0 ∧ (14 : Nat) = 14) :=
  ⟨by decide, C5_span_discipline.2 vaultC [] (str "n.md") (str "![a [b](c.pdf) d](x.png)")
    ⟨str "[b](c.pdf)", [str "c.pdf"], 4, 14⟩
    ⟨str "![a [b](c.pdf)", [str "c.pdf"], 0, 14⟩ (by decide) (by decide)⟩

/-! ### Claim C6: behaviour of unresolved references -/

/-- The prefix dispatch never emits an attachment or callout block. -/
theorem dispatchLine_not_attach (ft : Str → Option Str) (line : Str) :
    ∀ b, dispatchLine ft line = some b → isAttachBlock b = false := by
  intro b hb
  unfold dispatchLine at hb
  repeat' split at hb
  all_goals cases hb
  all_goals simp [isAttachBlock]

/-- With an empty reference map (no resolved reference spans), the line
loop emits no attachment or callout block. -/
theorem buildLoop_no_attach (ft : Str → Option Str) (lines : List Str) :
    ∀ inCode lang acc, ∀ b ∈ buildLoop ft [] lines inCode lang acc,
      isAttachBlock b = false := by
  induction lines with
  | nil =>
    intro inCode lang acc b hb
    unfold buildLoop at hb
    split at hb
    · rcases List.mem_singleton.mp hb with rfl
      simp [codeBlock, isAttachBlock]
    · simp at hb
  | cons line rest ih =>
    intro inCode lang acc b hb
    unfold buildLoop at hb
    split at hb
    · split at hb
      · exact ih _ _ _ b hb
      · rcases List.mem_cons.mp hb with rfl | hb
        · simp [codeBlock, isAttachBlock]
        · exact ih _ _ _ b hb
    · split at hb
      · exact ih _ _ _ b hb
      · simp only [List.find?_nil] at hb
        rcases hd : dispatchLine ft line with _ | b'
        · simp only [hd] at hb
          exact ih _ _ _ b hb
        · simp only [hd] at hb
          rcases List.mem_cons.mp hb with rfl | hb
          · exact dispatchLine_not_attach ft line b hd
          · exact ih _ _ _ b hb

/-- Claim C6 (amended): a reference token whose resolution fails is not
recorded as a reference span, so the pipeline emits no attachment block for
it (first conjunct: with no recorded spans the builder emits none at all),
exactly one record is appended to the unresolved-references collection, and
the raw token text remains in the body; the body line still becomes an
ordinary Paragraph block, but its rendered rich text is the result of
normal segmentation — for a failed markdown link, the link text only, not
the literal token (see `C6_unresolved_token_not_rendered_literally`). -/
theorem C6_unresolved_reference_behaviour :
    (∀ (upload : List Str → Option FileInfo) (ft : Str → Option Str) (content : Str),
      ∀ b ∈ buildBlocks upload ft [] content, isAttachBlock b = false) ∧
    parseContent [] [] (str "n.md") (str "a [doc](missing.pdf) b") =
      ⟨[], str "a [doc](missing.pdf) b", [], [⟨str "n.md", str "missing.pdf"⟩]⟩ ∧
    migrateNote [] [] (str "n.md") noup noft (str "a [doc](missing.pdf) b") =
      ([.paragraph [⟨str "a ", none, none⟩, ⟨str "doc", none, none⟩, ⟨str " b", none, none⟩]],
       [⟨str "n.md", str "missing.pdf"⟩]) := by
  refine ⟨?_, by decide, by decide⟩
  intro upload ft content b hb
  exact buildLoop_no_attach ft (splitNl content) false [] [] b hb

/-- Witness for `C6_unresolved_reference_behaviour`: the single block built
from the unresolved-reference document is not an attachment. -/
theorem C6_unresolved_reference_behaviour_witness :
    (Block.paragraph [⟨str "a ", none, none⟩, ⟨str "doc", none, none⟩,
        ⟨str " b", none, none⟩] ∈
      buildBlocks noup noft [] (str "a [doc](missing.pdf) b")) ∧
    isAttachBlock (Block.paragraph [⟨str "a ", none, none⟩, ⟨str "doc", none, none⟩,
        ⟨str " b", none, none⟩]) = false :=
  ⟨by decide, C6_unresolved_reference_behaviour.1 noup noft (str "a [doc](missing.pdf) b")
    _ (by decide)⟩

/-! ### Claim C7: resolution order -/

/-- Claim C7 (amended): resolution is form-major, not strategy-major — all
five local strategies are tried for the URL-decoded reference before any is
tried for the raw form — with the vault-wide basename search (on the
decoded basename) as the final fallback; within one form the strategies
run in the claimed order (1)–(5); the result is `None`, and exactly one
unresolved record is appended, precisely when everything fails. -/
theorem C7_resolution_order (v : Vault) (noteDir filesDir : List Str) (np ref : Str) :
    ((resolveFilePath v noteDir filesDir np ref).1 =
      (((if unquote (pyStrip ref) ≠ pyStrip ref then [unquote (pyStrip ref), pyStrip ref]
          else [pyStrip ref]).findSome? (tryForm v noteDir filesDir)) <|>
        searchVault v (pathName (unquote (pyStrip ref))))) ∧
    (∀ r : Str, tryForm v noteDir filesDir r =
      (strat1 v filesDir r <|> (strat2 v filesDir r <|> (strat3 v noteDir r <|>
        (strat4 v r <|> strat5 v filesDir r))))) ∧
    ((resolveFilePath v noteDir filesDir np ref).2 =
      if (resolveFilePath v noteDir filesDir np ref).1 = none then [⟨np, pyStrip ref⟩]
      else []) := by
  refine ⟨?_, ?_, ?_⟩
  · unfold resolveFilePath
    rcases hfs : (if unquote (pyStrip ref) ≠ pyStrip ref then [unquote (pyStrip ref), pyStrip ref]
        else [pyStrip ref]).findSome? (tryForm v noteDir filesDir) with _ | p
    · simp only [hfs, Option.none_orElse]
      rcases hs : searchVault v (pathName (unquote (pyStrip ref))) with _ | q <;>
        simp only [hs]
    · simp only [hfs, Option.some_orElse]
  · intro r
    unfold tryForm strat1 strat2 strat3 strat4 strat5
    by_cases h1 : (fsExists v filesDir && fsExists v (pyJoin filesDir r)) = true
    · simp [h1]
    · simp only [h1, if_false, Bool.false_eq_true]
      by_cases h2 : (fsExists v filesDir && fsExists v (filesDir ++ [pathName r])) = true
      · simp [h1, h2]
      · simp only [h1, h2, if_false, Bool.false_eq_true]
        by_cases h3 : fsExists v (pyJoin noteDir r) = true
        · simp [h1, h2, h3]
        · by_cases h4 : fsExists v (pyJoin [] r) = true
          · simp [h1, h2, h3, h4]
          · by_cases h5 : fsExists v filesDir = true
            · simp only [h1, h2, h3, h4, h5, if_false, if_true, Bool.false_eq_true]
              rcases hf : (dirListing v filesDir).find?
                  (fun e => e.1 == pathName r || pathStem e.1 == pathStem r) with _ | e
              · simp [hf]
              · simp [hf]
            · simp [h1, h2, h3, h4, h5]
  · unfold resolveFilePath
    rcases hfs : (if unquote (pyStrip ref) ≠ pyStrip ref then [unquote (pyStrip ref), pyStrip ref]
        else [pyStrip ref]).findSome? (tryForm v noteDir filesDir) with _ | p
    · rcases hs : searchVault v (pathName (unquote (pyStrip ref))) with _ | q
      · simp only [hfs, hs, if_pos trivial]
      · simp only [hfs, hs]
        rfl
    · simp only [hfs]
      rfl

/-! ### Claim C8: frontmatter parsing -/

/-- A `contains`-free membership reformulation. -/
theorem not_mem_of_contains_false {s : Str} {c : Char} (h : s.contains c = false) : c ∉ s := by
  intro hmem
  have h2 : s.contains c = true := List.elem_iff.mpr hmem
  rw [h2] at h
  cases h

/-- `takeWhile` passes over a prefix all of whose characters satisfy the
predicate. -/
theorem takeWhile_append_of_all {p : Char → Bool} (k l : Str) (hk : ∀ c ∈ k, p c = true) :
    (k ++ l).takeWhile p = k ++ l.takeWhile p := by
  induction k with
  | nil => rfl
  | cons c t ih =>
    simp only [List.cons_append, List.takeWhile_cons, hk c (List.mem_cons_self c t)]
    rw [ih (fun x hx => hk x (List.mem_cons_of_mem _ hx))]
    simp

/-- `dropWhile` drops a prefix all of whose characters satisfy the
predicate. -/
theorem dropWhile_append_of_all {p : Char → Bool} (k l : Str) (hk : ∀ c ∈ k, p c = true) :
    (k ++ l).dropWhile p = l.dropWhile p := by
  induction k with
  | nil => rfl
  | cons c t ih =>
    simp only [List.cons_append, List.dropWhile_cons, hk c (List.mem_cons_self c t)]
    rw [ih (fun x hx => hk x (List.mem_cons_of_mem _ hx))]
    simp

/-- A frontmatter line is split on its first colon, key and value
stripped. -/
theorem fmLine_keyvalue (acc : List (Str × Str)) (k vl : Str) (hk : k.contains ':' = false) :
    fmLine acc (k ++ ':' :: vl) = dictInsert (pyStrip k) (pyStrip vl) acc := by
  have hnot : (':' : Char) ∉ k := not_mem_of_contains_false hk
  have hkp : ∀ c ∈ k, (fun x => decide (x ≠ ':')) c = true := by
    intro c hc
    simp only [decide_eq_true_eq, ne_eq]
    rintro rfl
    exact hnot hc
  have hcon : (k ++ ':' :: vl).contains ':' = true :=
    List.elem_iff.mpr (List.mem_append_right k (List.mem_cons_self ':' vl))
  have ht : (k ++ ':' :: vl).takeWhile (· ≠ ':') = k := by
    rw [takeWhile_append_of_all k _ hkp]
    simp [List.takeWhile_cons]
  have hd : (k ++ ':' :: vl).dropWhile (· ≠ ':') = ':' :: vl := by
    rw [dropWhile_append_of_all k _ hkp]
    simp [List.dropWhile_cons]
  unfold fmLine
  rw [if_pos hcon, ht, hd]
  rfl

/-- A line without a colon contributes nothing to the frontmatter map. -/
theorem fmLines_skip_colonless (acc : List (Str × Str)) (pre post : List Str) (l : Str)
    (hl : l.contains ':' = false) :
    (pre ++ l :: post).foldl fmLine acc = (pre ++ post).foldl fmLine acc := by
  induction pre generalizing acc with
  | nil =>
    have hskip : fmLine acc l = acc := by
      unfold fmLine
      rw [if_neg (fun hc => by rw [hc] at hl; cases hl)]
    simp only [List.nil_append, List.foldl_cons, hskip]
  | cons a t ih =>
    simp only [List.cons_append, List.foldl_cons]
    exact ih _

/-- Claim C8: a leading `---`-delimited frontmatter block parses to the
string-to-string map of its `key: value` lines split on the first colon,
lines without a colon are ignored, and the block is fully consumed — for
`---\na: 1\nb: 2\n---\nBody` the map is `{a: 1, b: 2}` and the body is
exactly `Body`. -/
theorem C8_frontmatter_parsing :
    parseContent [] [] (str "n.md") (str "---\na: 1\nb: 2\n---\nBody") =
      ⟨[(str "a", str "1"), (str "b", str "2")], str "Body", [], []⟩ ∧
    (∀ (acc : List (Str × Str)) (k vl : Str), k.contains ':' = false →
      fmLine acc (k ++ ':' :: vl) = dictInsert (pyStrip k) (pyStrip vl) acc) ∧
    (∀ (acc : List (Str × Str)) (pre post : List Str) (l : Str), l.contains ':' = false →
      (pre ++ l :: post).foldl fmLine acc = (pre ++ post).foldl fmLine acc) :=
  ⟨by decide, fmLine_keyvalue, fmLines_skip_colonless⟩

/-- Witness for `C8_frontmatter_parsing` at `a: 1` and a colonless line. -/
theorem C8_frontmatter_parsing_witness :
    fmLine [] (str "a" ++ ':' :: str " 1") = [(str "a", str "1")] ∧
    ([str "x: y"] ++ (str "no colon") :: []).foldl fmLine [] =
      ([str "x: y"] ++ []).foldl fmLine [] :=
  ⟨by rw [C8_frontmatter_parsing.2.1 [] (str "a") (str " 1") (by decide)]; decide,
   C8_frontmatter_parsing.2.2 [] [str "x: y"] [] (str "no colon") (by decide)⟩

/-! ### Claim C9: fenced code blocks -/

/-- Splitting a separator-free string yields one field. -/
theorem splitChGo_no_sep (sep : Char) (a : Str) (ha : ∀ c ∈ a, c ≠ sep) :
    ∀ cur, splitChGo sep cur a = [cur.reverse ++ a] := by
  induction a with
  | nil => intro cur; simp [splitChGo]
  | cons c t ih =>
    intro cur
    simp only [splitChGo, if_neg (ha c (List.mem_cons_self c t))]
    rw [ih (fun x hx => ha x (List.mem_cons_of_mem _ hx)) (c :: cur)]
    simp

/-- Splitting at the first separator after a separator-free prefix. -/
theorem splitChGo_sep_split (sep : Char) (a rest : Str) (ha : ∀ c ∈ a, c ≠ sep) :
    ∀ cur, splitChGo sep cur (a ++ sep :: rest) =
      (cur.reverse ++ a) :: splitChGo sep [] rest := by
  induction a with
  | nil => intro cur; simp [splitChGo]
  | cons c t ih =>
    intro cur
    simp only [List.cons_append, splitChGo, if_neg (ha c (List.mem_cons_self c t)),
      List.append_eq]
    rw [ih (fun x hx => ha x (List.mem_cons_of_mem _ hx)) (c :: cur)]
    simp

/-- A list is a (boolean) prefix of itself followed by anything. -/
theorem isPrefixOf_append_self (a t : Str) : a.isPrefixOf (a ++ t) = true := by
  induction a with
  | nil => simp [List.isPrefixOf]
  | cons c r ih => simp [List.isPrefixOf, ih]

/-- A list is a (boolean) prefix of itself. -/
theorem isPrefixOf_self (a : Str) : a.isPrefixOf a = true := by
  have h := isPrefixOf_append_self a []
  rwa [List.append_nil] at h

/-- Claim C9 (amended): a fenced block ` ```lang\nX\nY\n``` ` (with `X`, `Y`
single non-fence lines) produces exactly one Code block; its content is
`X\nY` truncated to 2000 characters, and its language is the stripped
language token, lowercased and mapped through the alias table (`plain
text` when the token is blank) — not the token verbatim. -/
theorem C9_code_block_roundtrip (upload : List Str → Option FileInfo)
    (ft : Str → Option Str) (lang X Y : Str)
    (hl : lang.contains '\n' = false) (hx : X.contains '\n' = false)
    (hy : Y.contains '\n' = false)
    (hfx : fenceTok.isPrefixOf X = false) (hfy : fenceTok.isPrefixOf Y = false) :
    buildBlocks upload ft []
        ((fenceTok ++ lang) ++ '\n' :: (X ++ '\n' :: (Y ++ '\n' :: fenceTok))) =
      [Block.code ((X ++ '\n' :: Y).take 2000)
        (lookupLang (if pyStrip lang = [] then str "plain text" else pyStrip lang))] := by
  have hof : ∀ (s : Str), s.contains '\n' = false → ∀ c ∈ s, c ≠ '\n' := by
    intro s hs c hc hceq
    exact not_mem_of_contains_false hs (hceq ▸ hc)
  have hfl : ∀ c ∈ fenceTok ++ lang, c ≠ '\n' := by
    intro c hc
    rcases List.mem_append.mp hc with h | h
    · intro hceq
      subst hceq
      revert h
      decide
    · exact hof lang hl c h
  have hfe : ∀ c ∈ fenceTok, c ≠ '\n' := by decide
  have hsplit : splitNl ((fenceTok ++ lang) ++ '\n' :: (X ++ '\n' :: (Y ++ '\n' :: fenceTok))) =
      [fenceTok ++ lang, X, Y, fenceTok] := by
    unfold splitNl splitCh
    rw [splitChGo_sep_split '\n' (fenceTok ++ lang) _ hfl []]
    rw [splitChGo_sep_split '\n' X _ (hof X hx) []]
    rw [splitChGo_sep_split '\n' Y _ (hof Y hy) []]
    rw [splitChGo_no_sep '\n' fenceTok hfe []]
    simp
  have hdrop3 : (fenceTok ++ lang).drop 3 = lang := by
    rw [show fenceTok ++ lang = bq :: bq :: bq :: lang from rfl]
    rfl
  unfold buildBlocks
  simp only [List.foldl_nil, hsplit, buildLoop, isPrefixOf_append_self, hfx, hfy,
    isPrefixOf_self, hdrop3, Bool.not_false, if_true, Bool.false_eq_true, if_false,
    Bool.not_true]
  simp [codeBlock, joinNl]

/-- Witness for `C9_code_block_roundtrip` at `lang = hs`, `X = p`,
`Y = q`. -/
theorem C9_code_block_roundtrip_witness :
    buildBlocks noup noft []
        ((fenceTok ++ str "hs") ++ '\n' :: (str "p" ++ '\n' :: (str "q" ++ '\n' :: fenceTok))) =
      [Block.code ((str "p" ++ '\n' :: str "q").take 2000)
        (lookupLang (if pyStrip (str "hs") = [] then str "plain text"
          else pyStrip (str "hs")))] :=
  C9_code_block_roundtrip noup noft (str "hs") (str "p") (str "q")
    (by decide) (by decide) (by decide) (by decide) (by decide)

end NotionMigrate
